import Mathlib

/-!
Verification development for the task-execution worker of the
minecraft-whitelist gatekeeping service (Go package `worker`).

The Go source is shallowly embedded: each handler is a pure function from a
delivery (plus the outcomes of its external calls: game-server RPC, mailer,
token encryption) to the ordered list of observable effects it performs
(acknowledgements, publishes to the retry exchange, e-mails, document-store
writes, cache refreshes, error logs).  Machine integers of the source
(`int32` retry-count header, `int` expiration) are modelled as `Int` with
explicit wrap-around where Go would overflow.
-/

namespace MCWhitelist

/-- A decoded task message.  Modelled from the spec: the declaration of
`types.WhitelistRequest` is not under `src/`; the wire format of section 6
gives the fields `_id`, `username`, `email`, `status` that the worker reads. -/
structure WhitelistRequest where
  id : String
  username : String
  email : String
  status : String
  deriving DecidableEq, Repr

/-- A broker delivery as the worker observes it: the raw body bytes and the
two header keys the code reads.  `retryCount?` is the `x-retry-count` header
(an `int32` in the broker table, absent on first delivery).  `xDeath?` is the
`x-death` header projected to the `original-expiration` string of each death
record (the broker always stamps it as a string; the Go code type-asserts
exactly that shape). -/
structure Delivery where
  body : List Nat
  retryCount? : Option Int
  xDeath? : Option (List String)
  deriving DecidableEq, Repr

/-- Observable side effects of a handler run, in program order.
`publish` carries the fields of `amqp.Publishing` the retry path sets that
vary per message: target exchange, `x-retry-count` header value, the
`Expiration` string and the body (content type and persistent delivery mode
are constant in the source). -/
inductive Effect where
  | ack
  | publish (exchange : String) (retryCount : Int) (expiration : String) (body : List Nat)
  | rcon (command : String)
  | sendDecisionEmail (recipient : String)
  | sendConfirmationEmail (recipient : String)
  | sendOpEmail (recipient : String)
  | updateAssignees (assignees : List String)
  | updateOnserver (status : String)
  | updateCacheAll
  | updateCacheStats
  | logError (action : String)
  deriving DecidableEq, Repr

/-- `updateCache`: refresh the all-requests cache then the real-time stats,
both best effort (failures only log a warning, which we do not track). -/
def updateCache : List Effect := [Effect.updateCacheAll, Effect.updateCacheStats]

/-- Go `int64` digit-string parsing, `strconv.Atoi` helper: the digit run of
a candidate numeral, `none` when empty or containing a non-digit. -/
def parseDigits (cs : List Char) : Option Nat :=
  if cs ≠ [] ∧ cs.all Char.isDigit then
    some (cs.foldl (fun n c => n * 10 + (c.toNat - 48)) 0)
  else none

/-- `strconv.Atoi` on a 64-bit platform: optional sign followed by decimal
digits; returns the value and an ok flag (`err == nil`).  A syntax error
yields `(0, false)`; a range error clamps to the `int64` bounds with
`false`, as `strconv.ParseInt` does. -/
def goAtoi (s : String) : Int × Bool :=
  match s.data with
  | '+' :: rest =>
    match parseDigits rest with
    | some n => if (n : Int) ≤ 2 ^ 63 - 1 then ((n : Int), true) else (2 ^ 63 - 1, false)
    | none => (0, false)
  | '-' :: rest =>
    match parseDigits rest with
    | some n => if (n : Int) ≤ 2 ^ 63 then (-(n : Int), true) else (-(2 ^ 63), false)
    | none => (0, false)
  | cs =>
    match parseDigits cs with
    | some n => if (n : Int) ≤ 2 ^ 63 - 1 then ((n : Int), true) else (2 ^ 63 - 1, false)
    | none => (0, false)

/-- Two's-complement wrap-around of Go `int32` arithmetic. -/
def wrap32 (x : Int) : Int := (x + 2 ^ 31) % 2 ^ 32 - 2 ^ 31

/-- Two's-complement wrap-around of Go 64-bit `int` arithmetic. -/
def wrap64 (x : Int) : Int := (x + 2 ^ 63) % 2 ^ 64 - 2 ^ 63

/-- The expiration (delay in milliseconds) `retryMsgWithDelay` computes:
default `15 * 60 * 1000`; when the `x-death` header is present and non-empty,
the head record's `original-expiration` parsed with `strconv.Atoi` — the
parse error being discarded (`i, _ := strconv.Atoi(...)`) — and doubled by
Go's 64-bit `int` multiplication, which wraps on overflow. -/
def computeExpiration (d : Delivery) : Int :=
  match d.xDeath? with
  | some (e :: _) => wrap64 ((goAtoi e).1 * 2)
  | _ => 15 * 60 * 1000

/-- The retry count `retryMsgWithDelay` computes: `1` when the
`x-retry-count` header is absent, otherwise the header's `int32` value
incremented with Go's wrapping 32-bit addition. -/
def projectedRetryCount (d : Delivery) : Int :=
  match d.retryCount? with
  | some v => wrap32 (v + 1)
  | none => 1

/-- `retryMsgWithDelay`: compute the backoff expiration and the incremented
retry count; when the count exceeds 6 log a give-up error and ack the
original delivery, otherwise publish the original body to `retry.ex` with
header `x-retry-count` set to the new count and `Expiration` the decimal
string of the delay (the model lets the publish itself succeed; a failed
publish only logs).  Note: the republish branch performs no ack, although
the function's own doc comment says it acks the original message. -/
def retryMsgWithDelay (d : Delivery) (actionDescription : String) : List Effect :=
  let expiration := computeExpiration d
  let retryCount := projectedRetryCount d
  if retryCount > 6 then
    [Effect.logError actionDescription, Effect.ack]
  else
    [Effect.publish "retry.ex" retryCount (toString expiration) d.body]

/-- Outcome of processing one moderator inside the `emailToOps` loop:
encrypting the moderator's e-mail into a link token fails, the mailer send
fails, or the send succeeds. -/
inductive OpOutcome where
  | encFail
  | sendFail
  | sendOk
  deriving DecidableEq, Repr

/-- The per-moderator loop of `emailToOps`.  Returns the effects in program
order, the collected `assignees`, the local `successCount`, and whether the
loop aborted (`return 0, err` on a token-encryption failure, which skips the
remaining moderators and everything after the loop). -/
def opsLoop (outcome : String → OpOutcome) : List String → List Effect × List String × Int × Bool
  | [] => ([], [], 0, false)
  | op :: rest =>
    match outcome op with
    | OpOutcome.encFail => ([Effect.logError "encode opEmail"], [], 0, true)
    | OpOutcome.sendFail =>
      let r := opsLoop outcome rest
      (Effect.sendOpEmail op :: Effect.logError "send op" :: r.1, r.2.1, r.2.2.1, r.2.2.2)
    | OpOutcome.sendOk =>
      let r := opsLoop outcome rest
      (Effect.sendOpEmail op :: r.1, op :: r.2.1, r.2.2.1 + 1, r.2.2.2)

/-- Result of `emailToOps`: its effect trace, the returned success count and
`ok = (err == nil)`. -/
structure OpsResult where
  effects : List Effect
  successCount : Int
  ok : Bool
  deriving DecidableEq, Repr

/-- `emailToOps`: encrypt the request id (failure returns `(0, err)` before
any send); loop over the selected moderators sending action e-mails and
collecting successful recipients; an in-loop encryption failure returns
`(0, err)` immediately, bypassing the document update; otherwise persist the
non-empty `assignees` list and return the count, with an error exactly when
the count is below the quorum.  `idEncOk` is the outcome of encrypting the
request-id token, `outcome` the per-moderator outcomes. -/
def emailToOps (idEncOk : Bool) (ops : List String) (outcome : String → OpOutcome)
    (quoram : Int) : OpsResult :=
  if idEncOk = false then ⟨[Effect.logError "encode requestID"], 0, false⟩
  else
    let r := opsLoop outcome ops
    if r.2.2.2 then ⟨r.1, 0, false⟩
    else
      let es := r.1 ++ if r.2.1.isEmpty then [] else [Effect.updateAssignees r.2.1]
      if r.2.2.1 ≥ quoram then ⟨es, r.2.2.1, true⟩ else ⟨es, r.2.2.1, false⟩

/-- `processApproval`: refresh caches, issue `whitelist add <username>` over
RCON; on RPC failure hand the delivery to the retry step and return; on
success send the decision e-mail only when the `x-retry-count` header is
absent, persist onserver-status `Whitelisted`, and ack.  `rconOk` is the
outcome of the RCON command. -/
def processApproval (d : Delivery) (req : WhitelistRequest) (rconOk : Bool) : List Effect :=
  updateCache ++ [Effect.rcon ("whitelist add " ++ req.username)] ++
    if rconOk = false then retryMsgWithDelay d ("Whitelist " ++ req.username)
    else
      (if d.retryCount? = none then [Effect.sendDecisionEmail req.email] else []) ++
        [Effect.updateOnserver "Whitelisted", Effect.ack]

/-- `processDenial`: refresh caches, send the decision e-mail (best effort),
ack. -/
def processDenial (d : Delivery) (req : WhitelistRequest) : List Effect :=
  updateCache ++ [Effect.sendDecisionEmail req.email, Effect.ack]

/-- `processNewRequest`: send the confirmation e-mail (best effort), run
`emailToOps` with the configured quorum; on error log and return without
acking; otherwise refresh caches and ack. -/
def processNewRequest (d : Delivery) (req : WhitelistRequest) (idEncOk : Bool)
    (ops : List String) (outcome : String → OpOutcome) (quoram : Int) : List Effect :=
  let r := emailToOps idEncOk ops outcome quoram
  Effect.sendConfirmationEmail req.email :: r.effects ++
    (if r.ok = false then [Effect.logError "dispatch ops emails"] else updateCache ++ [Effect.ack])

/-- `processDeactivate`: issue `whitelist remove <username>`; on failure go
to the retry step and return; on success persist onserver-status `None`
(`types.OnserverNone`, constant modelled from the spec), refresh caches,
ack. -/
def processDeactivate (d : Delivery) (req : WhitelistRequest) (rconOk : Bool) : List Effect :=
  Effect.rcon ("whitelist remove " ++ req.username) ::
    if rconOk = false then retryMsgWithDelay d ("Deactivate " ++ req.username)
    else [Effect.updateOnserver "None"] ++ updateCache ++ [Effect.ack]

/-- `processBan`: issue `ban <username>`; on failure go to the retry step
but fall through regardless; persist onserver-status `Banned`, refresh
caches, ack. -/
def processBan (d : Delivery) (req : WhitelistRequest) (rconOk : Bool) : List Effect :=
  Effect.rcon ("ban " ++ req.username) ::
    (if rconOk = false then retryMsgWithDelay d ("Ban " ++ req.username) else []) ++
    [Effect.updateOnserver "Banned"] ++ updateCache ++ [Effect.ack]

/-- `getTargetOps`: under the `Broadcast` strategy return the configured
list unchanged; otherwise reseed and shuffle, then return the slice
`ops[:n]`.  The shuffled list is passed explicitly (the PRNG permutation is
external to the model); Go's slice expression panics when `n` is negative or
exceeds the slice capacity (equal to its length here), modelled as `none`. -/
def getTargetOps (strategy : String) (ops : List String) (n : Int)
    (shuffled : List String) : Option (List String) :=
  if strategy = "Broadcast" then some ops
  else if 0 ≤ n ∧ n ≤ (shuffled.length : Int) then some (shuffled.take n.toNat)
  else none

/-- The field names of the wire format that `types.WhitelistRequest`
declares (spec section 6). -/
def knownFields : List String := ["_id", "username", "email", "status"]

/-- Modelled from the spec: the codec's validation lives in the declaration
of `types.WhitelistRequest`, which is not under `src/`; section 4.3 states
that unknown fields are ignored and missing required fields (`id`, `status`)
yield a decode error.  A payload is modelled as its parsed field map;
decoding reads the known fields and ignores the rest. -/
def deserialize (fields : List (String × String)) : Option WhitelistRequest :=
  match fields.lookup "_id", fields.lookup "status" with
  | some i, some s =>
    some ⟨i, ((fields.lookup "username").getD ""), ((fields.lookup "email").getD ""), s⟩
  | _, _ => none

/-- One iteration of `runLoop` for a delivery whose body is non-nil:
decode; on decode error log and ack; otherwise dispatch on the task status
(`types.Status*` constants, values modelled from the spec wire format); a
status matching no case falls through the switch with no action. -/
def runLoopStep (d : Delivery) (decoded : Option WhitelistRequest) (rconOk idEncOk : Bool)
    (ops : List String) (outcome : String → OpOutcome) (quoram : Int) : List Effect :=
  match decoded with
  | none => [Effect.logError "decode", Effect.ack]
  | some req =>
    if req.status = "Approved" then processApproval d req rconOk
    else if req.status = "Denied" then processDenial d req
    else if req.status = "Pending" then processNewRequest d req idEncOk ops outcome quoram
    else if req.status = "Deactivated" then processDeactivate d req rconOk
    else if req.status = "Banned" then processBan d req rconOk
    else []

/-- The document store's view of the `assignees` field (`none` when the
field is absent from the application document), updated by effect replay;
`$set` writes the field, everything else leaves it alone. -/
def applyEffect (s : Option (List String)) (e : Effect) : Option (List String) :=
  match e with
  | Effect.updateAssignees as => some as
  | _ => s

/-- Whether an effect is the decision e-mail to the applicant. -/
def isDecisionEmail : Effect → Bool
  | Effect.sendDecisionEmail _ => true
  | _ => false

/-- Total number of decision e-mails sent across a sequence of Approved
handler runs for the same task; each run is a delivery paired with the RCON
outcome of that attempt. -/
def decisionEmailCount (req : WhitelistRequest) (runs : List (Delivery × Bool)) : Nat :=
  (runs.map fun p => (processApproval p.1 req p.2).countP isDecisionEmail).sum

/-- Broker redelivery: `Redelivery d d'` holds when `d'` is the later
delivery of a message the retry step republished for `d` — same body, the
published `x-retry-count` header, and a death trace whose head the broker
stamps with the message's expiration. -/
inductive Redelivery : Delivery → Delivery → Prop where
  | step (d : Delivery) (a : String) (rc : Int) (exp : String) (b : List Nat)
      (old : List String)
      (h : Effect.publish "retry.ex" rc exp b ∈ retryMsgWithDelay d a) :
      Redelivery d ⟨b, some rc, some (exp :: old)⟩

/-- A mailer that fails every send (used for concrete evaluations). -/
def allSendFail : String → OpOutcome := fun _ => OpOutcome.sendFail

/-- An environment where encrypting the second moderator's token fails
(used for concrete evaluations). -/
def encFailOutcome : String → OpOutcome := fun op =>
  if op = "m2@x" then OpOutcome.encFail else OpOutcome.sendOk

/-- A mailer where only the first moderator's send succeeds (used for
concrete evaluations). -/
def sfOutcome : String → OpOutcome := fun op =>
  if op = "m1@x" then OpOutcome.sendOk else OpOutcome.sendFail

/-- Claim C1: for every delivery entering the retry step, a republished
message carries `x-retry-count` equal to the incoming header value plus one
under the header's 32-bit arithmetic (so exactly previous + 1 whenever that
sum is representable, and 1 when the header is absent), and a publish to the
retry exchange happens only when this projected count is at most 6; beyond 6
the delivery is acknowledged with a give-up log record and nothing is
republished. -/
theorem retryCountIncrementBound (d : Delivery) (a : String) :
    (∀ ex rc exp b, Effect.publish ex rc exp b ∈ retryMsgWithDelay d a →
      ex = "retry.ex" ∧ b = d.body ∧ rc = projectedRetryCount d ∧ rc ≤ 6 ∧
        ((d.retryCount? = none ∧ rc = 1) ∨
          ∃ v, d.retryCount? = some v ∧ rc = wrap32 (v + 1))) ∧
    (projectedRetryCount d > 6 →
      retryMsgWithDelay d a = [Effect.logError a, Effect.ack]) ∧
    (∀ v, d.retryCount? = some v → -(2 ^ 31) ≤ v → v + 1 < 2 ^ 31 →
      projectedRetryCount d = v + 1) := by
  refine ⟨?_, ?_, ?_⟩
  · intro ex rc exp b h
    by_cases hgt : projectedRetryCount d > 6
    · simp [retryMsgWithDelay, hgt] at h
    · simp [retryMsgWithDelay, hgt] at h
      obtain ⟨h1, h2, _, h4⟩ := h
      refine ⟨h1, h4, h2, by omega, ?_⟩
      cases hrc : d.retryCount? with
      | none => exact Or.inl ⟨rfl, by simp [h2, projectedRetryCount, hrc]⟩
      | some v => exact Or.inr ⟨v, rfl, by simp [h2, projectedRetryCount, hrc]⟩
  · intro hgt
    simp [retryMsgWithDelay, hgt]
  · intro v hv h1 h2
    simp only [projectedRetryCount, hv, wrap32]
    omega

/-- Witness for C1 at a concrete delivery with header value 2: the republish
carries count 3 and all conjuncts hold. -/
theorem retryCountIncrementBoundWitness :
    "retry.ex" = "retry.ex" ∧
    [7] = (Delivery.mk [7] (some 2) (some ["900000"])).body ∧
    (3 : Int) = projectedRetryCount (Delivery.mk [7] (some 2) (some ["900000"])) ∧
    (3 : Int) ≤ 6 ∧
    (((Delivery.mk [7] (some 2) (some ["900000"])).retryCount? = none ∧ (3 : Int) = 1) ∨
      ∃ v, (Delivery.mk [7] (some 2) (some ["900000"])).retryCount? = some v ∧
        (3 : Int) = wrap32 (v + 1)) :=
  (retryCountIncrementBound (Delivery.mk [7] (some 2) (some ["900000"])) "A").1
    "retry.ex" 3 "1800000" [7] (by decide)

/-- Claim C2 (code bug): in the Approved handler, when the RCON command
fails on a first delivery the code republishes to `retry.ex` with
retry-count 1, expiration `"900000"` and a byte-identical body, but it never
acknowledges the original delivery, although the claim — and the doc comment
of `retryMsgWithDelay` itself — say the original is acknowledged. -/
theorem approvalRetryNoAck :
    Effect.publish "retry.ex" 1 "900000" [123] ∈
        processApproval ⟨[123], none, none⟩ ⟨"id", "alice", "a@x", "Approved"⟩ false ∧
    Effect.ack ∉
        processApproval ⟨[123], none, none⟩ ⟨"id", "alice", "a@x", "Approved"⟩ false := by
  decide

/-- Claim C3 (amended): the computed republish delay is `15 * 60 * 1000`
exactly when the `x-death` header is absent or its list is empty; when the
head record is present the delay is the `Atoi` value of its
`original-expiration` — the parse error discarded, so `0` (not 15 minutes)
when it does not parse — doubled in Go's 64-bit `int` arithmetic: exactly
twice the parsed value whenever that double is representable; along the
chain the system itself produces, the head is the decimal string
`900000 * 2 ^ k` and the delay sequence doubles:
`900000, 1800000, 3600000, ...`. -/
theorem retryDelaySchedule (d : Delivery) :
    (d.xDeath? = none → computeExpiration d = 15 * 60 * 1000) ∧
    (d.xDeath? = some [] → computeExpiration d = 15 * 60 * 1000) ∧
    (∀ e rest, d.xDeath? = some (e :: rest) →
      computeExpiration d = wrap64 (2 * (goAtoi e).1)) ∧
    (∀ e rest v, d.xDeath? = some (e :: rest) → (goAtoi e).1 = v →
      -(2 ^ 62) ≤ v → v < 2 ^ 62 → computeExpiration d = 2 * v) ∧
    (∀ k : Nat, ∀ rest, k < 6 → d.xDeath? = some (toString (900000 * 2 ^ k : Int) :: rest) →
      computeExpiration d = 900000 * 2 ^ (k + 1)) := by
  refine ⟨?_, ?_, ?_, ?_, ?_⟩
  · intro h; simp [computeExpiration, h]
  · intro h; simp [computeExpiration, h]
  · intro e rest h
    simp [computeExpiration, h, Int.mul_comm]
  · intro e rest v h hv h1 h2
    simp only [computeExpiration, h, hv, wrap64]
    omega
  · intro k rest hk h
    simp only [computeExpiration, h]
    interval_cases k <;> decide

/-- Witness for C3 at a concrete second retry: the head carries `"1800000"`
(the string `900000 * 2 ^ 1`) and the next delay is `900000 * 2 ^ 2`. -/
theorem retryDelayScheduleWitness :
    computeExpiration ⟨[], none, some ["1800000"]⟩ = 900000 * 2 ^ 2 :=
  (retryDelaySchedule ⟨[], none, some ["1800000"]⟩).2.2.2.2 1 [] (by decide) (by decide)

/-- Counterexample for C3 as stated: a death-trace head whose
`original-expiration` does not parse yields delay `0` (the ignored `Atoi`
error leaves `i = 0`), not the claimed `15 * 60 * 1000`. -/
theorem retryDelayUnparseableCex :
    computeExpiration ⟨[], none, some ["abc"]⟩ = 0 ∧
    computeExpiration ⟨[], none, some ["abc"]⟩ ≠ 15 * 60 * 1000 := by
  decide

/-- Claim C6 (code bug): with the random strategy, a threshold larger than
the moderator-list length makes `ops[:n]` panic (slice bounds out of range)
instead of returning the whole shuffled list; the model maps the panic to
`none`. -/
theorem randomDispatchThresholdPanic :
    getTargetOps "Random" ["m1@x"] 2 ["m1@x"] = none := by decide

/-- Claim C7 (amended): a delivery whose body decodes to a task with a
status matching none of the five handled cases falls through the dispatch
switch with no action at all: no handler runs and — contrary to the claim —
the delivery is not acknowledged either. -/
theorem unknownStatusSilentDrop (d : Delivery) (req : WhitelistRequest)
    (rconOk idEncOk : Bool) (ops : List String) (outcome : String → OpOutcome) (quoram : Int)
    (h : req.status ∉ (["Pending", "Approved", "Denied", "Deactivated", "Banned"] : List String)) :
    runLoopStep d (some req) rconOk idEncOk ops outcome quoram = [] := by
  simp only [List.mem_cons, List.not_mem_nil, or_false, not_or] at h
  obtain ⟨h1, h2, h3, h4, h5⟩ := h
  simp [runLoopStep, h1, h2, h3, h4, h5]

/-- Witness for C7 at a concrete unknown status. -/
theorem unknownStatusSilentDropWitness :
    runLoopStep ⟨[2], none, none⟩ (some ⟨"i", "u", "e", "Weird"⟩) false false [] sfOutcome 0 = [] :=
  unknownStatusSilentDrop ⟨[2], none, none⟩ ⟨"i", "u", "e", "Weird"⟩ false false [] sfOutcome 0
    (by decide)

/-- Counterexample for C7 as stated: on status `"Bogus"` the loop performs
no effect, in particular it does not acknowledge the delivery, whereas the
claim says it is acknowledged. -/
theorem unknownStatusNoAckCex :
    runLoopStep ⟨[1], none, none⟩ (some ⟨"i", "u", "e", "Bogus"⟩) true true [] sfOutcome 1 = [] ∧
    Effect.ack ∉ runLoopStep ⟨[1], none, none⟩ (some ⟨"i", "u", "e", "Bogus"⟩) true true [] sfOutcome 1 := by
  decide

/-- Looking a known key up in a payload filtered to the known fields gives
the same answer as in the full payload: the unknown fields never matter. -/
theorem lookupFilterKnown (k : String) (fields : List (String × String))
    (hk : k ∈ knownFields) :
    (fields.filter fun p => decide (p.1 ∈ knownFields)).lookup k = fields.lookup k := by
  induction fields with
  | nil => simp
  | cons p rest ih =>
    by_cases hp : p.1 ∈ knownFields
    · by_cases hkp : k = p.1
      · simp [List.filter_cons, hp, List.lookup, hkp]
      · have hbeq : (k == p.1) = false := beq_false_of_ne hkp
        simp [List.filter_cons, hp, List.lookup, hbeq, ih]
    · have hkp : ¬k = p.1 := fun hEq => hp (hEq ▸ hk)
      have hbeq : (k == p.1) = false := beq_false_of_ne hkp
      simp [List.filter_cons, hp, List.lookup, hbeq, ih]

/-- Claim C8: decoding fails exactly on payloads missing a required field
(`_id` or `status`) and ignores unknown fields: stripping every field
outside the declared wire format leaves the decoding result unchanged, and
a payload carrying both required fields decodes successfully. -/
theorem deserializeRequiredFields (fields : List (String × String)) :
    (fields.lookup "_id" = none ∨ fields.lookup "status" = none →
      deserialize fields = none) ∧
    ((fields.lookup "_id").isSome → (fields.lookup "status").isSome →
      (deserialize fields).isSome) ∧
    deserialize (fields.filter fun p => decide (p.1 ∈ knownFields)) = deserialize fields := by
  refine ⟨?_, ?_, ?_⟩
  · intro h
    unfold deserialize
    rcases h with h | h
    · rw [h]
    · rw [h]
      cases fields.lookup "_id" <;> rfl
  · intro h1 h2
    obtain ⟨i, hi⟩ := Option.isSome_iff_exists.mp h1
    obtain ⟨s, hs⟩ := Option.isSome_iff_exists.mp h2
    unfold deserialize
    rw [hi, hs]
    simp
  · have h1 := lookupFilterKnown "_id" fields (by decide)
    have h2 := lookupFilterKnown "status" fields (by decide)
    have h3 := lookupFilterKnown "username" fields (by decide)
    have h4 := lookupFilterKnown "email" fields (by decide)
    unfold deserialize
    rw [h1, h2, h3, h4]

/-- Witness for C8 at a concrete payload that carries both required fields
plus an unknown one. -/
theorem deserializeRequiredFieldsWitness :
    (deserialize [("_id", "aa"), ("status", "Pending"), ("zz", "1")]).isSome :=
  (deserializeRequiredFields [("_id", "aa"), ("status", "Pending"), ("zz", "1")]).2.1
    (by decide) (by decide)

/-- A redelivered message always carries the `x-retry-count` header the
retry step put on it. -/
theorem redeliveryTargetSome {d d' : Delivery} (h : Redelivery d d') :
    d'.retryCount?.isSome := by
  cases h
  rfl

/-- The retry step itself never sends a decision e-mail. -/
theorem retryNoDecisionEmail (d : Delivery) (a : String) :
    (retryMsgWithDelay d a).countP isDecisionEmail = 0 := by
  by_cases h : projectedRetryCount d > 6 <;>
    simp [retryMsgWithDelay, h, isDecisionEmail]

/-- An Approved run sends the decision e-mail exactly when the RCON command
succeeds and the delivery carries no `x-retry-count` header. -/
theorem processApprovalDecisionCount (d : Delivery) (req : WhitelistRequest) (rconOk : Bool) :
    (processApproval d req rconOk).countP isDecisionEmail =
      if rconOk = true ∧ d.retryCount? = none then 1 else 0 := by
  cases rconOk with
  | false =>
    simp [processApproval, updateCache, List.countP_append, retryNoDecisionEmail,
      isDecisionEmail]
  | true =>
    cases hrc : d.retryCount? with
    | none =>
      simp [processApproval, updateCache, List.countP_append, hrc, isDecisionEmail]
    | some v =>
      simp [processApproval, updateCache, List.countP_append, hrc, isDecisionEmail]

/-- Every delivery after the first in a redelivery chain carries the
`x-retry-count` header. -/
theorem chainTailRetryHeader (r : Delivery × Bool) (rest : List (Delivery × Bool))
    (h : List.Chain' (fun p q : Delivery × Bool => Redelivery p.1 q.1) (r :: rest)) :
    ∀ q ∈ rest, ((q : Delivery × Bool).1).retryCount?.isSome := by
  induction rest generalizing r with
  | nil =>
    intro q hq
    simp at hq
  | cons q' rest' ih =>
    rw [List.chain'_cons] at h
    intro q hq
    rcases List.mem_cons.mp hq with rfl | hq'
    · exact redeliveryTargetSome h.1
    · exact ih q' h.2 q hq'

/-- Claim C4: the Approved handler sends the decision e-mail only on a
delivery without the `x-retry-count` header; since every republished message
carries that header, at most one decision e-mail is sent across any chain of
redeliveries of the same task. -/
theorem approvalEmailAtMostOnce (req : WhitelistRequest) (runs : List (Delivery × Bool))
    (hchain : List.Chain' (fun p q : Delivery × Bool => Redelivery p.1 q.1) runs) :
    decisionEmailCount req runs ≤ 1 := by
  cases runs with
  | nil => simp [decisionEmailCount]
  | cons r rest =>
    have htail := chainTailRetryHeader r rest hchain
    have hzero : ∀ q ∈ rest,
        (processApproval (q : Delivery × Bool).1 req q.2).countP isDecisionEmail = 0 := by
      intro q hq
      have hsome := htail q hq
      rw [processApprovalDecisionCount]
      have hnot : ¬(q.2 = true ∧ q.1.retryCount? = none) := by
        rintro ⟨_, hnone⟩
        rw [hnone] at hsome
        simp at hsome
      simp [hnot]
    have hsum : (rest.map fun p : Delivery × Bool =>
        (processApproval p.1 req p.2).countP isDecisionEmail).sum = 0 := by
      apply List.sum_eq_zero
      intro x hx
      obtain ⟨q, hq, rfl⟩ := List.mem_map.mp hx
      exact hzero q hq
    have hhead : (processApproval r.1 req r.2).countP isDecisionEmail ≤ 1 := by
      rw [processApprovalDecisionCount]
      split <;> omega
    simp only [decisionEmailCount, List.map_cons, List.sum_cons, hsum]
    omega

/-- Witness for C4: a two-run chain, the first delivery fresh, the second
produced by the retry step's republish; at most one decision e-mail. -/
theorem approvalEmailAtMostOnceWitness :
    decisionEmailCount ⟨"i", "alice", "a@x", "Approved"⟩
      [(⟨[7], none, none⟩, true), (⟨[7], some 1, some ["900000"]⟩, true)] ≤ 1 :=
  approvalEmailAtMostOnce ⟨"i", "alice", "a@x", "Approved"⟩
    [(⟨[7], none, none⟩, true), (⟨[7], some 1, some ["900000"]⟩, true)]
    (List.chain'_cons.mpr
      ⟨Redelivery.step ⟨[7], none, none⟩ "A" 1 "900000" [7] [] (by decide),
        List.chain'_singleton _⟩)

/-- When no moderator token encryption fails, the `emailToOps` loop runs to
completion: the assignees are exactly the moderators whose send succeeded
(in configured order), the success count is their number, and the loop does
not abort. -/
theorem opsLoopNoAbort (outcome : String → OpOutcome) (ops : List String)
    (h : ∀ op ∈ ops, outcome op ≠ OpOutcome.encFail) :
    (opsLoop outcome ops).2.1 =
      (ops.filter fun op => decide (outcome op = OpOutcome.sendOk)) ∧
    (opsLoop outcome ops).2.2.1 =
      ((ops.filter fun op => decide (outcome op = OpOutcome.sendOk)).length : Int) ∧
    (opsLoop outcome ops).2.2.2 = false := by
  induction ops with
  | nil => simp [opsLoop]
  | cons op rest ih =>
    have hop : outcome op ≠ OpOutcome.encFail := h op (List.mem_cons_self op rest)
    have hrest := ih fun p hp => h p (List.mem_cons_of_mem op hp)
    cases hoc : outcome op with
    | encFail => exact absurd hoc hop
    | sendFail =>
      simp [opsLoop, hoc, List.filter_cons, hrest.1, hrest.2.1, hrest.2.2]
    | sendOk =>
      simp [opsLoop, hoc, List.filter_cons, hrest.1, hrest.2.1, hrest.2.2]

/-- Every effect the `emailToOps` loop emits is an action e-mail to one of
the moderators it was given, or an error log. -/
theorem opsLoopEffectMem (outcome : String → OpOutcome) (ops : List String) :
    ∀ e ∈ (opsLoop outcome ops).1,
      (∃ op, op ∈ ops ∧ e = Effect.sendOpEmail op) ∨ ∃ s, e = Effect.logError s := by
  induction ops with
  | nil => simp [opsLoop]
  | cons op rest ih =>
    intro e he
    cases hoc : outcome op with
    | encFail =>
      simp [opsLoop, hoc] at he
      exact Or.inr ⟨"encode opEmail", he⟩
    | sendFail =>
      simp only [opsLoop, hoc, List.mem_cons] at he
      rcases he with rfl | rfl | he
      · exact Or.inl ⟨op, List.mem_cons_self op rest, rfl⟩
      · exact Or.inr ⟨"send op", rfl⟩
      · rcases ih e he with ⟨p, hp, rfl⟩ | hs
        · exact Or.inl ⟨p, List.mem_cons_of_mem op hp, rfl⟩
        · exact Or.inr hs
    | sendOk =>
      simp only [opsLoop, hoc, List.mem_cons] at he
      rcases he with rfl | he
      · exact Or.inl ⟨op, List.mem_cons_self op rest, rfl⟩
      · rcases ih e he with ⟨p, hp, rfl⟩ | hs
        · exact Or.inl ⟨p, List.mem_cons_of_mem op hp, rfl⟩
        · exact Or.inr hs

/-- When no moderator token encryption fails, `emailToOps` with a good
request-id token reduces to: the loop effects, then the assignees update
exactly when some send succeeded; it returns the success count and succeeds
exactly when the count reaches the quorum. -/
theorem emailToOpsNoAbort (ops : List String) (outcome : String → OpOutcome) (quoram : Int)
    (henc : ∀ op ∈ ops, outcome op ≠ OpOutcome.encFail) :
    emailToOps true ops outcome quoram =
      ⟨(opsLoop outcome ops).1 ++
        (if (ops.filter fun op => decide (outcome op = OpOutcome.sendOk)).isEmpty then []
          else [Effect.updateAssignees
            (ops.filter fun op => decide (outcome op = OpOutcome.sendOk))]),
        ((ops.filter fun op => decide (outcome op = OpOutcome.sendOk)).length : Int),
        decide (((ops.filter fun op =>
          decide (outcome op = OpOutcome.sendOk)).length : Int) ≥ quoram)⟩ := by
  obtain ⟨ha, hc, hab⟩ := opsLoopNoAbort outcome ops henc
  unfold emailToOps
  simp only [Bool.true_eq_false, if_false, hab, ha, hc]
  by_cases hq : ((ops.filter fun op =>
      decide (outcome op = OpOutcome.sendOk)).length : Int) ≥ quoram <;> simp [hq]

/-- Replaying effects that contain no assignees update leaves the persisted
`assignees` field unchanged. -/
theorem foldlApplyNoAssignees (s : Option (List String)) (es : List Effect)
    (h : ∀ as, Effect.updateAssignees as ∉ es) :
    es.foldl applyEffect s = s := by
  induction es generalizing s with
  | nil => rfl
  | cons e rest ih =>
    have hrest : ∀ as, Effect.updateAssignees as ∉ rest := fun as hmem =>
      h as (List.mem_cons_of_mem e hmem)
    have hne : ∀ as, e ≠ Effect.updateAssignees as := fun as heq =>
      h as (heq ▸ List.mem_cons_self e rest)
    rw [List.foldl_cons]
    have happ : applyEffect s e = s := by
      cases e
      case updateAssignees as => exact absurd rfl (hne as)
      all_goals rfl
    rw [happ]
    exact ih s hrest

/-- The `emailToOps` loop never writes the assignees field by itself. -/
theorem opsLoopNoAssignees (outcome : String → OpOutcome) (ops : List String) :
    ∀ as, Effect.updateAssignees as ∉ (opsLoop outcome ops).1 := by
  intro as hmem
  rcases opsLoopEffectMem outcome ops _ hmem with ⟨p, _, h⟩ | ⟨s, h⟩ <;> simp at h

/-- `emailToOps` never acknowledges a delivery and never publishes to any
exchange. -/
theorem emailToOpsNoAckNoPublish (idEncOk : Bool) (ops : List String)
    (outcome : String → OpOutcome) (quoram : Int) :
    Effect.ack ∉ (emailToOps idEncOk ops outcome quoram).effects ∧
    ∀ ex rc exp b, Effect.publish ex rc exp b ∉ (emailToOps idEncOk ops outcome quoram).effects := by
  have hshape : ∀ e ∈ (emailToOps idEncOk ops outcome quoram).effects,
      (∃ op, op ∈ ops ∧ e = Effect.sendOpEmail op) ∨ (∃ s, e = Effect.logError s) ∨
        ∃ as, e = Effect.updateAssignees as := by
    intro e he
    unfold emailToOps at he
    by_cases hid : idEncOk = false
    · simp [hid] at he
      exact Or.inr (Or.inl ⟨"encode requestID", he⟩)
    · simp only [hid, if_false] at he
      by_cases hab : (opsLoop outcome ops).2.2.2
      · simp only [hab, if_true] at he
        rcases opsLoopEffectMem outcome ops e he with h | h
        · exact Or.inl h
        · exact Or.inr (Or.inl h)
      · simp only [hab, if_false] at he
        have he' : e ∈ (opsLoop outcome ops).1 ++
            (if (opsLoop outcome ops).2.1.isEmpty then []
              else [Effect.updateAssignees (opsLoop outcome ops).2.1]) := by
          by_cases hq : (opsLoop outcome ops).2.2.1 ≥ quoram <;> simp [hq] at he <;>
            simpa using he
        rcases List.mem_append.mp he' with h | h
        · rcases opsLoopEffectMem outcome ops e h with h' | h'
          · exact Or.inl h'
          · exact Or.inr (Or.inl h')
        · by_cases hemp : (opsLoop outcome ops).2.1.isEmpty
          · simp [hemp] at h
          · simp [hemp] at h
            exact Or.inr (Or.inr ⟨_, h⟩)
  constructor
  · intro hmem
    rcases hshape _ hmem with ⟨p, _, h⟩ | ⟨s, h⟩ | ⟨as, h⟩ <;> simp at h
  · intro ex rc exp b hmem
    rcases hshape _ hmem with ⟨p, _, h⟩ | ⟨s, h⟩ | ⟨as, h⟩ <;> simp at h

/-- Claim C5: in the Pending handler (with every moderator token encryption
succeeding, the failure mode treated separately by the abort path), the
returned success count is the number of moderators whose action e-mail send
succeeded; when it is below the quorum the handler logs the dispatch error
and returns without acknowledging and without publishing to any exchange;
when the quorum is met it refreshes the caches and acknowledges. -/
theorem pendingQuorumBehavior (d : Delivery) (req : WhitelistRequest) (ops : List String)
    (outcome : String → OpOutcome) (quoram : Int)
    (henc : ∀ op ∈ ops, outcome op ≠ OpOutcome.encFail) :
    (emailToOps true ops outcome quoram).successCount =
      ((ops.filter fun op => decide (outcome op = OpOutcome.sendOk)).length : Int) ∧
    (((ops.filter fun op => decide (outcome op = OpOutcome.sendOk)).length : Int) < quoram →
      Effect.ack ∉ processNewRequest d req true ops outcome quoram ∧
      (∀ ex rc exp b,
        Effect.publish ex rc exp b ∉ processNewRequest d req true ops outcome quoram) ∧
      Effect.logError "dispatch ops emails" ∈ processNewRequest d req true ops outcome quoram) ∧
    (((ops.filter fun op => decide (outcome op = OpOutcome.sendOk)).length : Int) ≥ quoram →
      processNewRequest d req true ops outcome quoram =
        Effect.sendConfirmationEmail req.email ::
          (emailToOps true ops outcome quoram).effects ++ (updateCache ++ [Effect.ack])) := by
  have heq := emailToOpsNoAbort ops outcome quoram henc
  refine ⟨by rw [heq], ?_, ?_⟩
  · intro hlt
    have hok : (emailToOps true ops outcome quoram).ok = false := by
      rw [heq]
      simp
      omega
    have htrace : processNewRequest d req true ops outcome quoram =
        Effect.sendConfirmationEmail req.email ::
          (emailToOps true ops outcome quoram).effects ++ [Effect.logError "dispatch ops emails"] := by
      unfold processNewRequest
      simp [hok]
    refine ⟨?_, ?_, ?_⟩
    · rw [htrace]
      intro hmem
      rcases List.mem_cons.mp hmem with h | h
      · simp at h
      · rcases List.mem_append.mp h with h' | h'
        · exact (emailToOpsNoAckNoPublish true ops outcome quoram).1 h'
        · simp at h'
    · intro ex rc exp b
      rw [htrace]
      intro hmem
      rcases List.mem_cons.mp hmem with h | h
      · simp at h
      · rcases List.mem_append.mp h with h' | h'
        · exact (emailToOpsNoAckNoPublish true ops outcome quoram).2 ex rc exp b h'
        · simp at h'
    · rw [htrace]
      simp
  · intro hge
    have hok : (emailToOps true ops outcome quoram).ok = true := by
      rw [heq]
      simp
      omega
    unfold processNewRequest
    simp [hok]

/-- Witness for C5 at a concrete quorum miss: three moderators, one
successful send, quorum two, the delivery is not acknowledged. -/
theorem pendingQuorumBehaviorWitness :
    Effect.ack ∉ processNewRequest ⟨[1], none, none⟩ ⟨"i", "u", "a@x", "Pending"⟩ true
      ["m1@x", "m2@x", "m3@x"] sfOutcome 2 :=
  ((pendingQuorumBehavior ⟨[1], none, none⟩ ⟨"i", "u", "a@x", "Pending"⟩
      ["m1@x", "m2@x", "m3@x"] sfOutcome 2 (by decide)).2.1 (by decide)).1

/-- Claim C9 (amended): after `emailToOps` (moderator token encryption
succeeding throughout), the persisted `assignees` field equals the subset of
selected moderators whose send succeeded whenever that subset is non-empty;
when no send succeeded the update is skipped and the field keeps its prior
value instead of becoming the empty list. -/
theorem assigneesPersistedExact (s0 : Option (List String)) (ops : List String)
    (outcome : String → OpOutcome) (quoram : Int)
    (henc : ∀ op ∈ ops, outcome op ≠ OpOutcome.encFail) :
    ((ops.filter fun op => decide (outcome op = OpOutcome.sendOk)) ≠ [] →
      ((emailToOps true ops outcome quoram).effects).foldl applyEffect s0 =
        some (ops.filter fun op => decide (outcome op = OpOutcome.sendOk))) ∧
    ((ops.filter fun op => decide (outcome op = OpOutcome.sendOk)) = [] →
      ((emailToOps true ops outcome quoram).effects).foldl applyEffect s0 = s0) := by
  have heq := emailToOpsNoAbort ops outcome quoram henc
  have hloop := opsLoopNoAssignees outcome ops
  constructor
  · intro hne
    have hemp : (ops.filter fun op => decide (outcome op = OpOutcome.sendOk)).isEmpty = false := by
      simpa [List.isEmpty_iff] using hne
    rw [heq]
    simp only [hemp, Bool.false_eq_true, if_false]
    rw [List.foldl_append, foldlApplyNoAssignees s0 _ hloop]
    rfl
  · intro hempty
    have hemp : (ops.filter fun op => decide (outcome op = OpOutcome.sendOk)).isEmpty = true := by
      simp [List.isEmpty_iff, hempty]
    rw [heq]
    simp only [hemp, if_true]
    rw [List.append_nil]
    exact foldlApplyNoAssignees s0 _ hloop

/-- Witness for C9: one of two sends succeeds, the persisted assignees are
exactly that moderator. -/
theorem assigneesPersistedExactWitness :
    ((emailToOps true ["m1@x", "m2@x"] sfOutcome 2).effects).foldl applyEffect none =
      some (["m1@x", "m2@x"].filter fun op => decide (sfOutcome op = OpOutcome.sendOk)) :=
  (assigneesPersistedExact none ["m1@x", "m2@x"] sfOutcome 2 (by decide)).1 (by decide)

/-- Counterexample for C9 as stated: when every send fails the code skips
the update (`len(assignees) > 0` guard), so a document whose `assignees`
field is absent keeps no field at all rather than the claimed empty
subset. -/
theorem assigneesEmptySkipCex :
    ((emailToOps true ["m1@x", "m2@x"] allSendFail 2).effects).foldl applyEffect none = none ∧
    (none : Option (List String)) ≠ some [] := by
  decide

/-- An in-loop token-encryption failure stops the `emailToOps` loop right
there: the effects are those of the moderators already processed plus the
encode-error log, the accumulated assignees and count are the prefix's, and
the abort flag is set. -/
theorem opsLoopAbort (outcome : String → OpOutcome) (pre post : List String) (op : String)
    (hpre : ∀ p ∈ pre, outcome p ≠ OpOutcome.encFail)
    (hop : outcome op = OpOutcome.encFail) :
    opsLoop outcome (pre ++ op :: post) =
      ((opsLoop outcome pre).1 ++ [Effect.logError "encode opEmail"],
        (opsLoop outcome pre).2.1, (opsLoop outcome pre).2.2.1, true) := by
  induction pre with
  | nil => simp [opsLoop, hop]
  | cons p pre' ih =>
    have hp : outcome p ≠ OpOutcome.encFail := hpre p (List.mem_cons_self p pre')
    have hih := ih fun q hq => hpre q (List.mem_cons_of_mem p hq)
    cases hpc : outcome p with
    | encFail => exact absurd hpc hp
    | sendFail => simp [opsLoop, hpc, hih]
    | sendOk => simp [opsLoop, hpc, hih]

/-- Claim C10: a token-encryption failure inside `emailToOps` (for the
request id before the loop, or for a moderator inside the loop) makes the
function return `(0, error)` at once: no moderator after the failing one
gets an action e-mail and no assignees update is written; the Pending
handler then takes the quorum-failure path and returns without
acknowledging. -/
theorem encFailQuorumAbort (d : Delivery) (req : WhitelistRequest) (pre post : List String)
    (op : String) (outcome : String → OpOutcome) (quoram : Int)
    (hpre : ∀ p ∈ pre, outcome p ≠ OpOutcome.encFail)
    (hop : outcome op = OpOutcome.encFail) :
    (emailToOps true (pre ++ op :: post) outcome quoram).successCount = 0 ∧
    (emailToOps true (pre ++ op :: post) outcome quoram).ok = false ∧
    (emailToOps true (pre ++ op :: post) outcome quoram).effects =
      (opsLoop outcome pre).1 ++ [Effect.logError "encode opEmail"] ∧
    (∀ as, Effect.updateAssignees as ∉
      (emailToOps true (pre ++ op :: post) outcome quoram).effects) ∧
    (∀ q, Effect.sendOpEmail q ∈
      (emailToOps true (pre ++ op :: post) outcome quoram).effects → q ∈ pre) ∧
    Effect.ack ∉ processNewRequest d req true (pre ++ op :: post) outcome quoram ∧
    emailToOps false (pre ++ op :: post) outcome quoram =
      ⟨[Effect.logError "encode requestID"], 0, false⟩ ∧
    Effect.ack ∉ processNewRequest d req false (pre ++ op :: post) outcome quoram := by
  have habort := opsLoopAbort outcome pre post op hpre hop
  have heq : emailToOps true (pre ++ op :: post) outcome quoram =
      ⟨(opsLoop outcome pre).1 ++ [Effect.logError "encode opEmail"], 0, false⟩ := by
    unfold emailToOps
    rw [habort]
    simp
  have hshape : ∀ e ∈ (emailToOps true (pre ++ op :: post) outcome quoram).effects,
      (∃ p, p ∈ pre ∧ e = Effect.sendOpEmail p) ∨ ∃ s, e = Effect.logError s := by
    rw [heq]
    intro e he
    rcases List.mem_append.mp he with h | h
    · exact opsLoopEffectMem outcome pre e h
    · simp at h
      exact Or.inr ⟨"encode opEmail", h⟩
  have hfalse : emailToOps false (pre ++ op :: post) outcome quoram =
      ⟨[Effect.logError "encode requestID"], 0, false⟩ := by
    unfold emailToOps
    simp
  refine ⟨by rw [heq], by rw [heq], by rw [heq], ?_, ?_, ?_, hfalse, ?_⟩
  · intro as hmem
    rcases hshape _ hmem with ⟨p, _, h⟩ | ⟨s, h⟩ <;> simp at h
  · intro q hmem
    rcases hshape _ hmem with ⟨p, hp, h⟩ | ⟨s, h⟩
    · simp at h
      exact h ▸ hp
    · simp at h
  · have hok : (emailToOps true (pre ++ op :: post) outcome quoram).ok = false := by
      rw [heq]
    have htr : processNewRequest d req true (pre ++ op :: post) outcome quoram =
        Effect.sendConfirmationEmail req.email ::
          (emailToOps true (pre ++ op :: post) outcome quoram).effects ++
            [Effect.logError "dispatch ops emails"] := by
      unfold processNewRequest
      simp [hok]
    rw [htr]
    intro hmem
    rcases List.mem_cons.mp hmem with h | h
    · simp at h
    · rcases List.mem_append.mp h with h' | h'
      · rcases hshape _ h' with ⟨p, _, hh⟩ | ⟨s, hh⟩ <;> simp at hh
      · simp at h'
  · have hok2 : (emailToOps false (pre ++ op :: post) outcome quoram).ok = false := by
      rw [hfalse]
    have htr2 : processNewRequest d req false (pre ++ op :: post) outcome quoram =
        Effect.sendConfirmationEmail req.email ::
          (emailToOps false (pre ++ op :: post) outcome quoram).effects ++
            [Effect.logError "dispatch ops emails"] := by
      unfold processNewRequest
      simp [hok2]
    rw [htr2, hfalse]
    simp

/-- Witness for C10: three moderators, the second one's token encryption
fails after the first send succeeded; the function still reports success
count zero. -/
theorem encFailQuorumAbortWitness :
    (emailToOps true (["m1@x"] ++ "m2@x" :: ["m3@x"]) encFailOutcome 1).successCount = 0 :=
  (encFailQuorumAbort ⟨[1], none, none⟩ ⟨"i", "u", "a@x", "Pending"⟩ ["m1@x"] ["m3@x"]
      "m2@x" encFailOutcome 1 (by decide) (by decide)).1

end MCWhitelist
